import Mathlib

/-!
Verification of the `scope-iops` plugin (`src/main.go`).

The program is a small sidecar daemon: it shells out to `iostat -d`,
parses the tabular output into per-device records (`iostat`), and serves
a fixed-shape report over HTTP (`Plugin.Report` / `Plugin.makeReport`).

This file gives a shallow embedding of the Go code:
* Go strings are Lean `String`s; `strings.Split(s, "\n")` and
  `strings.Fields` are re-implemented by structural recursion over
  `s.data : List Char` so that every definition is executable and
  kernel-reducible.
* Go maps are association lists `List (String × _)`; the code only ever
  builds maps with pairwise-distinct keys and the claims are about map
  contents, so the list order carries no information we rely on.
* `time.Time` is an abstract timestamp, modelled as `Nat`.
* Fallible operations return `Except`; the Go runtime panic caused by an
  out-of-range slice index in the parsing loop is modelled as a distinct
  error value `iopsError.indexOutOfRange`, and — unlike the `error`
  values the code returns and checks with `if err != nil` — it
  propagates out of `getLatests`, `makeReport` and the handler (as
  `goPanic`), so the affected request gets no response at all.
* The external command invocation is a parameter: `Option String` is the
  raw command output, `none` meaning `exec.Command(...).Output()` failed.
-/

namespace ScopeIops

/-- Model of Go `strings.Split(s, sep)` for a one-character separator:
splits at every occurrence of `c`; the result always has one more element
than the number of occurrences of `c` (`[""]` on the empty string, like Go). -/
def splitOnChar (c : Char) : List Char → List (List Char)
  | [] => [[]]
  | d :: cs =>
    let r := splitOnChar c cs
    if d = c then [] :: r
    else (d :: r.headD []) :: r.tail

/-- Accumulator-based worker for `goFields`; `acc` holds the current
in-progress field, in reverse. -/
def fieldsAux : List Char → List Char → List (List Char)
  | [], acc => if acc.isEmpty then [] else [acc.reverse]
  | c :: cs, acc =>
    if c.isWhitespace then
      if acc.isEmpty then fieldsAux cs []
      else acc.reverse :: fieldsAux cs []
    else fieldsAux cs (c :: acc)

/-- Model of Go `strings.Fields`: splits around maximal runs of whitespace,
returning the non-empty words. (Go uses `unicode.IsSpace`; we use
`Char.isWhitespace`, which agrees on the ASCII whitespace appearing in
`iostat` output.) -/
def goFields (s : String) : List String :=
  (fieldsAux s.data []).map (fun cs => ⟨cs⟩)

/-- The lines of the command output, as in
`lines := strings.Split(string(out), "\n")` (src/main.go line 227). -/
def linesOf (out : String) : List String :=
  (splitOnChar '\n' out.data).map (fun cs => ⟨cs⟩)

/-- Go `iopsData` (src/main.go lines 100-105): one per-device record. -/
structure iopsData where
  Device : String
  Tps : String
  Readps : String
  Writeps : String
deriving Repr, DecidableEq

/-- The zero value of `iopsData`: what `make([]iopsData, n)` fills the
slice with before the loop writes to it. -/
def zeroIops : iopsData := ⟨"", "", "", ""⟩

/-- The ways `iostat` can fail in the model:
* `execFailed`: `exec.Command("iostat", "-d").Output()` returned an error;
* `unexpectedOutput`: the `"iops: unexpected output"` error returns
  (src/main.go lines 229 and 250);
* `indexOutOfRange`: the Go runtime panic raised by `values[k]` when the
  line has fewer than `k+1` fields (src/main.go lines 241-244). -/
inductive iopsError where
  | execFailed
  | unexpectedOutput
  | indexOutOfRange
deriving Repr, DecidableEq

instance {ε α : Type} [DecidableEq ε] [DecidableEq α] : DecidableEq (Except ε α) := fun x y =>
  match x, y with
  | .error e, .error f =>
    if h : e = f then .isTrue (h ▸ rfl) else .isFalse (fun hc => h (Except.error.inj hc))
  | .error _, .ok _ => .isFalse (fun hc => Except.noConfusion hc)
  | .ok _, .error _ => .isFalse (fun hc => Except.noConfusion hc)
  | .ok a, .ok b =>
    if h : a = b then .isTrue (h ▸ rfl) else .isFalse (fun hc => h (Except.ok.inj hc))

/-- The record-building step of one `index > 2` loop iteration
(src/main.go lines 240-245): read `values[0]` … `values[3]` — a missing
field is the Go index-out-of-range panic, which also discards every
record already written — and prepend the record to the rest of the
loop's result. -/
def parseFour (line : String) (tl : Except iopsError (List iopsData)) :
    Except iopsError (List iopsData) :=
  match (goFields line)[0]?, (goFields line)[1]?, (goFields line)[2]?, (goFields line)[3]? with
  | some d, some t, some r, some w => tl.map (fun l => ⟨d, t, r, w⟩ :: l)
  | _, _, _, _ => .error .indexOutOfRange

/-- The body of the `for index, line := range lines` loop
(src/main.go lines 235-247), over the index-annotated lines.
`break` is modelled by returning with no further records; an iteration
with `index > 2` contributes one record built from the first four
whitespace-separated fields of the line via `parseFour`. -/
def parseLoop : List (Nat × String) → Except iopsError (List iopsData)
  | [] => .ok []
  | (index, line) :: rest =>
    if line = "" ∧ index ≠ 1 then .ok []
    else if index > 2 then parseFour line (parseLoop rest)
    else parseLoop rest

/-- The part of `iostat` after the command has produced output
(src/main.go lines 227-252), as a function of the split lines. The
pre-allocated slice `iops := make([]iopsData, len(lines)-3)` is modelled
by padding the records written by the loop with zero values up to length
`len(lines) - 3`; the loop never writes past the end of the slice
(it fills at most one record per line of index ≥ 3), so this is faithful. -/
def iostatParse (lines : List String) : Except iopsError (List iopsData) :=
  if lines.length < 3 then .error .unexpectedOutput
  else
    match parseLoop (List.enumFrom 0 lines) with
    | .error e => .error e
    | .ok filled =>
      let iops := filled ++ List.replicate (lines.length - 3 - filled.length) zeroIops
      if iops.length ≤ 0 then .error .unexpectedOutput else .ok iops

/-- Go `iostat` (src/main.go lines 217-253). The parameter is the outcome of
`exec.Command("iostat", "-d").Output()` (`none`: the command failed). -/
def iostat (cmdOut : Option String) : Except iopsError (List iopsData) :=
  match cmdOut with
  | none => .error .execFailed
  | some out => iostatParse (linesOf out)

/-- Go `iops` (src/main.go lines 212-214): just calls `iostat`. -/
def iops (cmdOut : Option String) : Except iopsError (List iopsData) :=
  iostat cmdOut

/-- The device lines of an output: the lines the parsing loop actually
builds records from. These are the lines at index ≥ 3, up to (excluding)
the first line where the loop `break`s — i.e. the first empty line whose
index is not 1. An empty line at index 0 or 2 stops the loop before any
device line is reached. -/
def deviceLines (lines : List String) : List String :=
  match lines with
  | a :: _ :: c :: rest =>
    if a = "" then [] else if c = "" then [] else rest.takeWhile (fun l => l ≠ "")
  | _ => []

/-- The record the loop builds from one device line: its first four
whitespace-separated fields (total description; on lines with at least
four fields the `getD` defaults are never used). -/
def recordOfLine (line : String) : iopsData :=
  let values := goFields line
  ⟨values.getD 0 "", values.getD 1 "", values.getD 2 "", values.getD 3 ""⟩

/-- Go `stringEntry` (src/main.go lines 87-90); `time.Time` is modelled as `Nat`. -/
structure stringEntry where
  Timestamp : Nat
  Value : String
deriving Repr, DecidableEq

/-- Go `controlData` (src/main.go lines 76-78). -/
structure controlData where
  Dead : Bool
deriving Repr, DecidableEq

/-- Go `controlEntry` (src/main.go lines 71-74). -/
structure controlEntry where
  Timestamp : Nat
  Value : controlData
deriving Repr, DecidableEq

/-- Go `control` (src/main.go lines 80-85). -/
structure control where
  ID : String
  Human : String
  Icon : String
  Rank : Nat
deriving Repr, DecidableEq

/-- Go `metadataTemplate` (src/main.go lines 57-64). `Priority` is `float64`
in Go; the program only ever stores the integer 1 in it, which `Nat`
represents exactly. -/
structure metadataTemplate where
  ID : String
  Label : String
  Truncate : Nat
  Datatype : String
  Priority : Nat
  From : String
deriving Repr, DecidableEq

/-- Go `columns` (src/main.go lines 51-55). -/
structure columns where
  ID : String
  Label : String
  Datatype : String
deriving Repr, DecidableEq

/-- Go `tableTemplate` (src/main.go lines 43-49). The Go field `Type` is
renamed `Typ` because `Type` is a Lean keyword. -/
structure tableTemplate where
  ID : String
  Label : String
  Prefix : String
  Typ : String
  Columns : List columns
deriving Repr, DecidableEq

/-- Go `node` (src/main.go lines 66-69). Go maps become association lists;
`Latest = none` models the Go `nil` map returned by `getLatests` on a
sampling failure, which `json:"latest,omitempty"` omits from the JSON. -/
structure node where
  LatestControls : List (String × controlEntry)
  Latest : Option (List (String × stringEntry))
deriving Repr, DecidableEq

/-- Go `topology` (src/main.go lines 36-41). -/
structure topology where
  Nodes : List (String × node)
  Controls : List (String × control)
  MetadataTemplates : List (String × metadataTemplate)
  TableTemplates : List (String × tableTemplate)
deriving Repr, DecidableEq

/-- Go `pluginSpec` (src/main.go lines 92-98). -/
structure pluginSpec where
  ID : String
  Label : String
  Description : String
  Interfaces : List String
  APIVersion : String
deriving Repr, DecidableEq

/-- Go `report` (src/main.go lines 31-34). -/
structure report where
  Host : topology
  Plugins : List pluginSpec
deriving Repr, DecidableEq

/-- Go `iopsTablePrefix` (src/main.go lines 20-22). -/
def iopsTablePrefix : String := "iops-table-"

/-- Go `Plugin.getTopologyHost` (src/main.go lines 255-257):
`fmt.Sprintf("%s;<host>", p.HostID)`. -/
def getTopologyHost (hostID : String) : String :=
  hostID ++ ";<host>"

/-- The four `latests` map entries written for one record of the
`for index, value := range IopsData` loop body (src/main.go lines 268-285). -/
def entriesFor (ts : Nat) (index : Nat) (value : iopsData) : List (String × stringEntry) :=
  [("iops-table-" ++ toString (index + 1) ++ "___device", ⟨ts, value.Device⟩),
   ("iops-table-" ++ toString (index + 1) ++ "___tps", ⟨ts, value.Tps⟩),
   ("iops-table-" ++ toString (index + 1) ++ "___readps", ⟨ts, value.Readps⟩),
   ("iops-table-" ++ toString (index + 1) ++ "___writeps", ⟨ts, value.Writeps⟩)]

/-- The `for index, value := range IopsData` loop of `getLatests`
(src/main.go lines 268-285), with the running Go index made explicit. -/
def latestsFrom (ts : Nat) : Nat → List iopsData → List (String × stringEntry)
  | _, [] => []
  | index, value :: rest => entriesFor ts index value ++ latestsFrom ts (index + 1) rest

/-- A Go runtime panic escaping the reporting path. The only panic it
can raise is the index-out-of-range in the parsing loop
(src/main.go lines 241-244); unlike the `error` values `iostat` returns,
a panic is never seen by any `if err != nil` check — it propagates out of
`getLatests`, `makeReport` and the handler. -/
inductive goPanic where
  | indexOutOfRange
deriving Repr, DecidableEq

/-- Go `getLatests` (src/main.go lines 259-288): takes one timestamp
`ts := time.Now()` and samples via `iops()`. The
`if err != nil { return nil }` check (lines 262-264) only sees the
errors that `iostat` returns as Go `error` values (`execFailed`,
`unexpectedOutput`) and yields the `nil` map (here `.ok none`); the
index-out-of-range panic raised inside the parsing loop is not an
`error` return — it propagates out of `getLatests`, modelled by the
`.error` of the outer `Except`. -/
def getLatests (ts : Nat) (cmdOut : Option String) :
    Except goPanic (Option (List (String × stringEntry))) :=
  match iops cmdOut with
  | .error .indexOutOfRange => .error .indexOutOfRange
  | .error _ => .ok none
  | .ok data => .ok (some (latestsFrom ts 0 data))

/-- Go `getMetadataTemplate` (src/main.go lines 290-325). -/
def getMetadataTemplate : List (String × metadataTemplate) :=
  [("device", ⟨"device", "Device", 0, "", 1, "latest"⟩),
   ("tps", ⟨"tps", "tps", 0, "", 1, "latest"⟩),
   ("readps", ⟨"readps", "kB_read/s", 0, "", 1, "latest"⟩),
   ("writeps", ⟨"writeps", "kB_wrtn/s", 0, "", 1, "latest"⟩)]

/-- Go `getTableTemplate` (src/main.go lines 327-358). -/
def getTableTemplate : List (String × tableTemplate) :=
  [("iops-table-",
    ⟨"iops-table-", "Iops", iopsTablePrefix, "multicolumn-table",
     [⟨"device", "Device", ""⟩, ⟨"tps", "tps", ""⟩,
      ⟨"readps", "kB_read/s", ""⟩, ⟨"writeps", "kB_wrtn/s", ""⟩]⟩)]

/-- Go `Plugin.makeReport` (src/main.go lines 186-210). `ts` is the
`time.Now()` taken inside `getLatests`; `cmdOut` is this invocation's
fresh command execution. Evaluating the report literal calls
`getLatests()` (line 192): if that call panics, the panic propagates and
no report is built; otherwise the function returns the report together
with the returned `error`, which the Go code always sets to `nil`. -/
def makeReport (hostID : String) (ts : Nat) (cmdOut : Option String) :
    Except goPanic (report × Option String) :=
  match getLatests ts cmdOut with
  | .error p => .error p
  | .ok latest =>
    .ok ({ Host :=
            { Nodes := [(getTopologyHost hostID,
                         { LatestControls := [], Latest := latest })],
              Controls := [],
              MetadataTemplates := getMetadataTemplate,
              TableTemplates := getTableTemplate },
           Plugins := [⟨"iops", "iops", "Adds a IOPS details to Host", ["reporter"], "1"⟩] },
         none)

/-- One incoming HTTP request to `/report`, together with its
per-invocation environment: the `time.Now()` timestamp and the outcome
of this invocation's fresh `exec.Command("iostat", "-d").Output()`. -/
structure httpRequest where
  ts : Nat
  cmdOut : Option String
deriving Repr, DecidableEq

/-- The response written by `Plugin.Report`: either HTTP 200 with the
JSON marshalling of a report, or HTTP 500 via `http.Error`. The JSON
encoding itself is not modelled; `ok` carries the report value whose
marshalling is the body. -/
inductive httpResponse where
  | ok (body : report)
  | internalServerError (msg : String)
deriving Repr, DecidableEq

/-- Go `Plugin.Report` (src/main.go lines 166-184), one invocation. The
body between `Lock` and the deferred `Unlock` builds a report from this
request's fresh sample and writes it. If `makeReport` panics, the panic
propagates out of the handler (`.error`): the deferred `Unlock` still
runs, `net/http` recovers the panic at the connection level, and no
response is written for this request. Otherwise the error branches check
the error value; `json.Marshal` cannot fail on the plain data of
`report` (no cyclic or unsupported values), so its error branch is not
reachable and is not modelled as a separate failure. -/
def Report (hostID : String) (req : httpRequest) : Except goPanic httpResponse :=
  match makeReport hostID req.ts req.cmdOut with
  | .error p => .error p
  | .ok (_, some e) => .ok (.internalServerError e)
  | .ok (rpt, none) => .ok (.ok rpt)

/-- The handler applied to a sequence of requests. `Plugin` has no
mutable fields besides the mutex (src/main.go lines 25-29), and
`Report` reads nothing written by earlier invocations: each element is
produced from that request's own fresh sample only. A `.error` element
is a request whose handler panicked: that request gets no response,
while `net/http` keeps serving the later requests. -/
def handleRequests (hostID : String) (reqs : List httpRequest) :
    List (Except goPanic httpResponse) :=
  reqs.map (Report hostID)

/-- Number of `iops()` invocations performed by `getLatests`
(src/main.go line 261): exactly one. -/
def execCallsOfGetLatests : Nat := 1

/-- Number of `iops()` invocations performed by `Plugin.makeReport`
(src/main.go line 192): those of the single `getLatests()` call. -/
def execCallsOfMakeReport : Nat := execCallsOfGetLatests

/-- Number of `iops()` invocations performed by one `Plugin.Report`
invocation (src/main.go line 170): those of the single `makeReport` call. -/
def execCallsOfReport : Nat := execCallsOfMakeReport

/-- Total number of `iops()` invocations over one run of `main`
(src/main.go lines 131-162) that serves the given request sequence: the
single startup sanity check at line 142, plus the calls made by the
handler for each request. `main` contains no ticker, timer or polling
goroutine; these are the only call sites of `iops()`. -/
def execCallsOfMain (reqs : List httpRequest) : Nat :=
  1 + (reqs.map (fun _ => execCallsOfReport)).sum


/-- Program counter of one invocation of `Plugin.Report`
(src/main.go lines 166-184):
0 = not yet at `p.lock.Lock()`; 1 = holding the lock, about to log;
2 = inside `makeReport` (sample + parse + build); 3 = `json.Marshal`;
4 = writing the response; 5 = returned (the deferred `Unlock` has run).
The critical section is pc 1 through 4. -/
structure lockState (n : Nat) where
  owner : Option (Fin n)
  pc : Fin n → Nat

/-- Interleaving semantics of `n` concurrent `Plugin.Report` invocations
against the single `p.lock sync.Mutex`. `lock` blocks until the mutex is
free (`sync.Mutex.Lock`); `work` is any internal step of the handler body,
which does not touch the mutex; `unlock` is the return together with the
deferred `p.lock.Unlock()` (src/main.go lines 167-168), which covers the
early `return`s of the error branches as well. -/
inductive reportStep (n : Nat) : lockState n → lockState n → Prop where
  | lock (t : Fin n) (s : lockState n) :
      s.pc t = 0 → s.owner = none →
      reportStep n s ⟨some t, Function.update s.pc t 1⟩
  | work (t : Fin n) (s : lockState n) (k : Nat) :
      s.pc t = k → 1 ≤ k → k < 4 →
      reportStep n s ⟨s.owner, Function.update s.pc t (k + 1)⟩
  | unlock (t : Fin n) (s : lockState n) :
      s.pc t = 4 →
      reportStep n s ⟨none, Function.update s.pc t 5⟩

/-- Initial state: no invocation has started, the mutex is free. -/
def initState (n : Nat) : lockState n :=
  ⟨none, fun _ => 0⟩

/-- The states the system of `n` concurrent handler invocations can reach. -/
def reachable (n : Nat) (s : lockState n) : Prop :=
  Relation.ReflTransGen (reportStep n) (initState n) s

/-- Invocation `t` is between `p.lock.Lock()` and the deferred
`p.lock.Unlock()`, i.e. inside the sample-parse-build-respond sequence. -/
def inCritical {n : Nat} (s : lockState n) (t : Fin n) : Prop :=
  1 ≤ s.pc t ∧ s.pc t ≤ 4



/-- Restriction of the parsing loop to the lines of index ≥ 3: every empty
line breaks (an index ≥ 3 is never 1), every other line contributes a
record. `parseLoop_enumFrom` below proves this is what the loop does
from index 3 on. -/
def parseTail : List String → Except iopsError (List iopsData)
  | [] => .ok []
  | line :: rest =>
    if line = "" then .ok []
    else parseFour line (parseTail rest)

theorem parseFour_of_four (line : String) (h4 : 4 ≤ (goFields line).length)
    (tl : Except iopsError (List iopsData)) :
    parseFour line tl = tl.map (fun l => recordOfLine line :: l) := by
  rcases hv : goFields line with _ | ⟨v0, _ | ⟨v1, _ | ⟨v2, _ | ⟨v3, vs⟩⟩⟩⟩ <;>
    simp [hv] at h4 ⊢ <;>
    simp [parseFour, recordOfLine, hv, List.getD]

theorem parseFour_of_short (line : String) (hs : (goFields line).length < 4)
    (tl : Except iopsError (List iopsData)) :
    parseFour line tl = .error .indexOutOfRange := by
  rcases hv : goFields line with _ | ⟨v0, _ | ⟨v1, _ | ⟨v2, _ | ⟨v3, vs⟩⟩⟩⟩ <;>
    first
      | (simp [hv] at hs; omega)
      | simp [parseFour, hv]

theorem parseLoop_enumFrom (rest : List String) :
    ∀ k, 2 < k → parseLoop (List.enumFrom k rest) = parseTail rest := by
  induction rest with
  | nil => intro k hk; rfl
  | cons line rest ih =>
    intro k hk
    have hk1 : k ≠ 1 := by omega
    by_cases hline : line = ""
    · simp [List.enumFrom, parseLoop, parseTail, hline, hk1]
    · simp [List.enumFrom, parseLoop, parseTail, hline, hk, ih (k + 1) (by omega)]

theorem parseLoop_top (a b c : String) (rest : List String) :
    parseLoop (List.enumFrom 0 (a :: b :: c :: rest)) =
      if a = "" then .ok [] else if c = "" then .ok [] else parseTail rest := by
  by_cases ha : a = ""
  · simp [List.enumFrom, parseLoop, ha]
  · by_cases hc : c = ""
    · simp [List.enumFrom, parseLoop, ha, hc]
    · simp [List.enumFrom, parseLoop, ha, hc, parseLoop_enumFrom rest 3 (by omega)]

theorem parseTail_ok (rest : List String)
    (h : ∀ l ∈ rest.takeWhile (fun s => s ≠ ""), 4 ≤ (goFields l).length) :
    parseTail rest = .ok ((rest.takeWhile (fun s => s ≠ "")).map recordOfLine) := by
  induction rest with
  | nil => rfl
  | cons line rest ih =>
    by_cases hline : line = ""
    · simp [parseTail, List.takeWhile_cons, hline]
    · have htw : (line :: rest).takeWhile (fun s => s ≠ "") =
          line :: rest.takeWhile (fun s => s ≠ "") := by
        rw [List.takeWhile_cons]
        simp [hline]
      rw [htw] at h
      have h4 : 4 ≤ (goFields line).length := h line (List.mem_cons_self line _)
      have hrest : ∀ l ∈ rest.takeWhile (fun s => s ≠ ""), 4 ≤ (goFields l).length :=
        fun l hl => h l (List.mem_cons_of_mem line hl)
      rw [htw, List.map_cons]
      simp [parseTail, hline, parseFour_of_four line h4, ih hrest, Except.map]

theorem parseTail_panic (rest : List String)
    (h : ∃ l ∈ rest.takeWhile (fun s => s ≠ ""), (goFields l).length < 4) :
    parseTail rest = .error .indexOutOfRange := by
  induction rest with
  | nil =>
    rcases h with ⟨l, hl, -⟩
    exact absurd hl (List.not_mem_nil l)
  | cons line rest ih =>
    by_cases hline : line = ""
    · exfalso
      rw [List.takeWhile_cons] at h
      simp [hline] at h
    · have htw : (line :: rest).takeWhile (fun s => s ≠ "") =
          line :: rest.takeWhile (fun s => s ≠ "") := by
        rw [List.takeWhile_cons]
        simp [hline]
      rw [htw] at h
      rcases h with ⟨l, hl, hlen⟩
      rcases List.mem_cons.mp hl with rfl | hl2
      · simp [parseTail, hline, parseFour_of_short l hlen]
      · have htl : parseTail rest = .error .indexOutOfRange := ih ⟨l, hl2, hlen⟩
        by_cases h4 : 4 ≤ (goFields line).length
        · simp [parseTail, hline, parseFour_of_four line h4, htl, Except.map]
        · simp [parseTail, hline, parseFour_of_short line (by omega)]

theorem length_takeWhile_le (p : String → Bool) (l : List String) :
    (l.takeWhile p).length ≤ l.length := by
  induction l with
  | nil => simp
  | cons x l ih =>
    rw [List.takeWhile_cons]
    by_cases hx : p x <;> simp [hx] <;> omega


theorem iostatParse_eq_of_loop_ok (lines : List String) (filled : List iopsData)
    (h3 : ¬ lines.length < 3)
    (hl : parseLoop (List.enumFrom 0 lines) = .ok filled) :
    iostatParse lines =
      if (filled ++ List.replicate (lines.length - 3 - filled.length) zeroIops).length ≤ 0
      then .error .unexpectedOutput
      else .ok (filled ++ List.replicate (lines.length - 3 - filled.length) zeroIops) := by
  rw [iostatParse, if_neg h3, hl]

theorem iostatParse_eq_of_loop_err (lines : List String) (e : iopsError)
    (h3 : ¬ lines.length < 3)
    (hl : parseLoop (List.enumFrom 0 lines) = .error e) :
    iostatParse lines = .error e := by
  rw [iostatParse, if_neg h3, hl]

/-- Master characterization of the parser: an output of fewer than 4
lines is the `unexpected output` error; otherwise, if every device line
has at least four fields the result is one record per device line (its
first four fields) padded with zero-valued records up to
`len(lines) - 3`, and if some device line is short the loop panics. -/
theorem iostatParse_spec (lines : List String) :
    (lines.length < 4 → iostatParse lines = .error .unexpectedOutput) ∧
    (4 ≤ lines.length →
      ((∀ l ∈ deviceLines lines, 4 ≤ (goFields l).length) →
        iostatParse lines = .ok ((deviceLines lines).map recordOfLine ++
          List.replicate (lines.length - 3 - (deviceLines lines).length) zeroIops)) ∧
      ((∃ l ∈ deviceLines lines, (goFields l).length < 4) →
        iostatParse lines = .error .indexOutOfRange)) := by
  rcases lines with _ | ⟨a, _ | ⟨b, _ | ⟨c, rest⟩⟩⟩
  · exact ⟨fun _ => rfl, fun h4 => absurd h4 (by simp)⟩
  · exact ⟨fun _ => rfl, fun h4 => absurd h4 (by simp)⟩
  · exact ⟨fun _ => rfl, fun h4 => absurd h4 (by simp)⟩
  · have h3 : ¬ ((a :: b :: c :: rest).length < 3) := by
      simp only [List.length_cons]
      omega
    constructor
    · intro h4
      have hrest : rest = [] := by
        cases rest with
        | nil => rfl
        | cons x xs =>
          simp only [List.length_cons] at h4
          omega
      subst hrest
      have hok : parseLoop (List.enumFrom 0 [a, b, c]) = .ok [] := by
        rw [parseLoop_top]
        by_cases ha : a = ""
        · rw [if_pos ha]
        · rw [if_neg ha]
          by_cases hc : c = ""
          · rw [if_pos hc]
          · rw [if_neg hc]
            rfl
      rw [iostatParse_eq_of_loop_ok [a, b, c] [] h3 hok]
      rfl
    · intro h4
      have hne : rest ≠ [] := by
        intro hr
        subst hr
        simp only [List.length_cons, List.length_nil] at h4
        omega
      have hpos : 0 < rest.length := List.length_pos.mpr hne
      constructor
      · intro hall
        by_cases ha : a = ""
        · have hdl : deviceLines (a :: b :: c :: rest) = [] := by
            simp [deviceLines, ha]
          have hok : parseLoop (List.enumFrom 0 (a :: b :: c :: rest)) = .ok [] := by
            rw [parseLoop_top, if_pos ha]
          rw [iostatParse_eq_of_loop_ok _ [] h3 hok, hdl]
          simp only [List.nil_append, List.map_nil, List.length_nil, List.length_replicate,
            List.length_cons]
          rw [if_neg (by omega)]
        · by_cases hc : c = ""
          · have hdl : deviceLines (a :: b :: c :: rest) = [] := by
              simp [deviceLines, ha, hc]
            have hok : parseLoop (List.enumFrom 0 (a :: b :: c :: rest)) = .ok [] := by
              rw [parseLoop_top, if_neg ha, if_pos hc]
            rw [iostatParse_eq_of_loop_ok _ [] h3 hok, hdl]
            simp only [List.nil_append, List.map_nil, List.length_nil, List.length_replicate,
              List.length_cons]
            rw [if_neg (by omega)]
          · have hdl : deviceLines (a :: b :: c :: rest) =
                rest.takeWhile (fun l => l ≠ "") := by
              simp [deviceLines, ha, hc]
            rw [hdl] at hall
            have hok : parseLoop (List.enumFrom 0 (a :: b :: c :: rest)) =
                .ok ((rest.takeWhile (fun s => s ≠ "")).map recordOfLine) := by
              rw [parseLoop_top, if_neg ha, if_neg hc]
              exact parseTail_ok rest hall
            rw [iostatParse_eq_of_loop_ok _ _ h3 hok, hdl]
            have htwle : (rest.takeWhile (fun s => s ≠ "")).length ≤ rest.length :=
              length_takeWhile_le _ rest
            rw [if_neg]
            · simp only [List.length_map]
            · simp only [List.length_append, List.length_replicate, List.length_map,
                List.length_cons]
              omega
      · intro hbad
        by_cases ha : a = ""
        · rw [show deviceLines (a :: b :: c :: rest) = [] from by simp [deviceLines, ha]] at hbad
          rcases hbad with ⟨l, hl, -⟩
          exact absurd hl (List.not_mem_nil l)
        · by_cases hc : c = ""
          · rw [show deviceLines (a :: b :: c :: rest) = [] from by
              simp [deviceLines, ha, hc]] at hbad
            rcases hbad with ⟨l, hl, -⟩
            exact absurd hl (List.not_mem_nil l)
          · rw [show deviceLines (a :: b :: c :: rest) = rest.takeWhile (fun l => l ≠ "") from by
              simp [deviceLines, ha, hc]] at hbad
            have herr : parseLoop (List.enumFrom 0 (a :: b :: c :: rest)) =
                .error .indexOutOfRange := by
              rw [parseLoop_top, if_neg ha, if_neg hc]
              exact parseTail_panic rest hbad
            exact iostatParse_eq_of_loop_err _ _ h3 herr


theorem latestsFrom_length (ts : Nat) (data : List iopsData) :
    ∀ k, (latestsFrom ts k data).length = 4 * data.length := by
  induction data with
  | nil => intro k; rfl
  | cons v rest ih =>
    intro k
    simp only [latestsFrom, entriesFor, List.length_append, List.length_cons,
      List.length_nil, ih (k + 1)]
    omega

theorem latestsFrom_mem_of (ts : Nat) (data : List iopsData) :
    ∀ k i (hi : i < data.length) (p : String × stringEntry),
      p ∈ entriesFor ts (k + i) (data.get ⟨i, hi⟩) → p ∈ latestsFrom ts k data := by
  induction data with
  | nil => intro k i hi p hp; exact absurd hi (Nat.not_lt_zero i)
  | cons v rest ih =>
    intro k i hi p hp
    cases i with
    | zero => exact List.mem_append_left _ (by simpa using hp)
    | succ j =>
      have hj : j < rest.length := by
        simp only [List.length_cons] at hi
        omega
      refine List.mem_append_right _ (ih (k + 1) j hj p ?_)
      rw [show k + 1 + j = k + (j + 1) from by omega]
      exact hp

theorem latestsFrom_mem_elim (ts : Nat) (data : List iopsData) :
    ∀ k p, p ∈ latestsFrom ts k data →
      ∃ i, ∃ hi : i < data.length, p ∈ entriesFor ts (k + i) (data.get ⟨i, hi⟩) := by
  induction data with
  | nil => intro k p hp; exact absurd hp (List.not_mem_nil p)
  | cons v rest ih =>
    intro k p hp
    rcases List.mem_append.mp hp with h1 | h2
    · exact ⟨0, by simp, by simpa using h1⟩
    · rcases ih (k + 1) p h2 with ⟨j, hj, hpj⟩
      refine ⟨j + 1, by simp only [List.length_cons]; omega, ?_⟩
      rw [show k + (j + 1) = k + 1 + j from by omega]
      exact hpj

theorem entriesFor_timestamp (ts idx : Nat) (v : iopsData) (p : String × stringEntry)
    (hp : p ∈ entriesFor ts idx v) : p.2.Timestamp = ts := by
  rcases List.mem_cons.mp hp with rfl | hp2
  · rfl
  rcases List.mem_cons.mp hp2 with rfl | hp3
  · rfl
  rcases List.mem_cons.mp hp3 with rfl | hp4
  · rfl
  rcases List.mem_cons.mp hp4 with rfl | hp5
  · rfl
  exact absurd hp5 (List.not_mem_nil p)

theorem makeReport_ok (hostID : String) (ts : Nat) (cmdOut : Option String)
    (latest : Option (List (String × stringEntry)))
    (hgl : getLatests ts cmdOut = .ok latest) :
    makeReport hostID ts cmdOut =
      .ok ({ Host :=
              { Nodes := [(getTopologyHost hostID,
                           { LatestControls := [], Latest := latest })],
                Controls := [],
                MetadataTemplates := getMetadataTemplate,
                TableTemplates := getTableTemplate },
             Plugins := [⟨"iops", "iops", "Adds a IOPS details to Host",
               ["reporter"], "1"⟩] }, none) := by
  simp only [makeReport, hgl]

theorem makeReport_panic (hostID : String) (ts : Nat) (cmdOut : Option String)
    (p : goPanic) (hgl : getLatests ts cmdOut = .error p) :
    makeReport hostID ts cmdOut = .error p := by
  simp only [makeReport, hgl]

theorem makeReport_ok_elim (hostID : String) (ts : Nat) (cmdOut : Option String)
    (rpt : report) (err : Option String)
    (h : makeReport hostID ts cmdOut = .ok (rpt, err)) :
    err = none ∧
    ∃ latest, getLatests ts cmdOut = .ok latest ∧
      rpt = ({ Host :=
                { Nodes := [(getTopologyHost hostID,
                             { LatestControls := [], Latest := latest })],
                  Controls := [],
                  MetadataTemplates := getMetadataTemplate,
                  TableTemplates := getTableTemplate },
               Plugins := [⟨"iops", "iops", "Adds a IOPS details to Host",
                 ["reporter"], "1"⟩] } : report) := by
  cases hgl : getLatests ts cmdOut with
  | error p =>
    rw [makeReport_panic hostID ts cmdOut p hgl] at h
    exact absurd h (by simp)
  | ok latest =>
    rw [makeReport_ok hostID ts cmdOut latest hgl] at h
    have h2 := Except.ok.inj h
    exact ⟨(congrArg Prod.snd h2).symm, latest, rfl, (congrArg Prod.fst h2).symm⟩

theorem Report_ok (hostID : String) (req : httpRequest) (rpt : report)
    (h : makeReport hostID req.ts req.cmdOut = .ok (rpt, none)) :
    Report hostID req = .ok (.ok rpt) := by
  simp only [Report, h]

theorem Report_panic (hostID : String) (req : httpRequest) (p : goPanic)
    (h : makeReport hostID req.ts req.cmdOut = .error p) :
    Report hostID req = .error p := by
  simp only [Report, h]


theorem reportStep_preserves_inv {n : Nat} {s1 s2 : lockState n}
    (hstep : reportStep n s1 s2)
    (inv : ∀ t, inCritical s1 t → s1.owner = some t) :
    ∀ t, inCritical s2 t → s2.owner = some t := by
  cases hstep with
  | lock u s0 hpc howner =>
    intro t ht
    by_cases htu : t = u
    · subst htu
      rfl
    · have hcrit : inCritical s1 t := by
        simpa [inCritical, Function.update_noteq htu] using ht
      have he := inv t hcrit
      rw [howner] at he
      exact Option.noConfusion he
  | work u s0 k hpc hk1 hk4 =>
    intro t ht
    by_cases htu : t = u
    · subst htu
      apply inv t
      refine ⟨?_, ?_⟩ <;> rw [hpc] <;> omega
    · have hcrit : inCritical s1 t := by
        simpa [inCritical, Function.update_noteq htu] using ht
      exact inv t hcrit
  | unlock u s0 hpc =>
    intro t ht
    by_cases htu : t = u
    · subst htu
      rcases ht with ⟨-, h4⟩
      simp only [Function.update_same] at h4
      omega
    · have hcrit : inCritical s1 t := by
        simpa [inCritical, Function.update_noteq htu] using ht
      have h1 := inv t hcrit
      have h2 := inv u ⟨by rw [hpc]; omega, by rw [hpc]⟩
      exact absurd (Option.some.inj (h1.symm.trans h2)) htu

theorem reachable_lockInvariant (n : Nat) (s : lockState n) (h : reachable n s) :
    ∀ t, inCritical s t → s.owner = some t := by
  have h2 : Relation.ReflTransGen (reportStep n) (initState n) s := h
  clear h
  induction h2 with
  | refl =>
    intro t ht
    rcases ht with ⟨h1, -⟩
    exact absurd h1 (by simp [initState])
  | tail hab hbc ih => exact reportStep_preserves_inv hbc ih


theorem deviceLines_length_le (lines : List String) :
    (deviceLines lines).length ≤ lines.length - 3 := by
  rcases lines with _ | ⟨a, _ | ⟨b, _ | ⟨c, rest⟩⟩⟩
  · simp [deviceLines]
  · simp [deviceLines]
  · simp [deviceLines]
  · show (deviceLines (a :: b :: c :: rest)).length ≤ (a :: b :: c :: rest).length - 3
    rw [deviceLines]
    have hle := length_takeWhile_le (fun l => l ≠ "") rest
    by_cases ha : a = ""
    · simp [ha]
    · by_cases hc : c = ""
      · simp [ha, hc]
      · simp only [ha, hc, if_false, List.length_cons]
        omega

/-- Shape of every successful parse: all device lines have at least four
fields, and the result is their records followed by the zero-valued
padding of the pre-allocated slice. -/
theorem iostat_ok_shape (out : String) (rs : List iopsData)
    (h : iostat (some out) = .ok rs) :
    4 ≤ (linesOf out).length ∧
    (∀ l ∈ deviceLines (linesOf out), 4 ≤ (goFields l).length) ∧
    rs = (deviceLines (linesOf out)).map recordOfLine ++
      List.replicate ((linesOf out).length - 3 - (deviceLines (linesOf out)).length)
        zeroIops := by
  have hp : iostatParse (linesOf out) = .ok rs := h
  have hspec := iostatParse_spec (linesOf out)
  by_cases h4 : 4 ≤ (linesOf out).length
  · by_cases hall : ∀ l ∈ deviceLines (linesOf out), 4 ≤ (goFields l).length
    · have hok := (hspec.2 h4).1 hall
      rw [hp] at hok
      exact ⟨h4, hall, Except.ok.inj hok⟩
    · push_neg at hall
      have herr := (hspec.2 h4).2 (by
        rcases hall with ⟨l, hl, hlen⟩
        exact ⟨l, hl, hlen⟩)
      rw [hp] at herr
      exact absurd herr (by simp)
  · have herr := hspec.1 (by omega)
    rw [hp] at herr
    exact absurd herr (by simp)


theorem get_append_left_my {α : Type} :
    ∀ (l1 l2 : List α) (j : Nat) (hj : j < l1.length) (h2 : j < (l1 ++ l2).length),
      (l1 ++ l2).get ⟨j, h2⟩ = l1.get ⟨j, hj⟩ := by
  intro l1
  induction l1 with
  | nil => intro l2 j hj h2; exact absurd hj (by simp)
  | cons x xs ih =>
    intro l2 j hj h2
    cases j with
    | zero => rfl
    | succ i =>
      have hj2 : i < xs.length := by
        simp only [List.length_cons] at hj
        omega
      have h22 : i < (xs ++ l2).length := by
        simp only [List.cons_append, List.length_cons] at h2
        omega
      exact ih l2 i hj2 h22

theorem get_replicate_my {α : Type} (a : α) :
    ∀ (m j : Nat) (h : j < (List.replicate m a).length),
      (List.replicate m a).get ⟨j, h⟩ = a := by
  intro m
  induction m with
  | zero => intro j h; exact absurd h (by simp)
  | succ k ih =>
    intro j h
    cases j with
    | zero => rfl
    | succ i =>
      exact ih i (by simp only [List.length_replicate] at h ⊢; omega)

theorem get_append_replicate_my {α : Type} :
    ∀ (l1 : List α) (m : Nat) (a : α) (j : Nat) (hle : l1.length ≤ j)
      (h2 : j < (l1 ++ List.replicate m a).length),
      (l1 ++ List.replicate m a).get ⟨j, h2⟩ = a := by
  intro l1
  induction l1 with
  | nil =>
    intro m a j hle h2
    exact get_replicate_my a m j (by simpa using h2)
  | cons x xs ih =>
    intro m a j hle h2
    cases j with
    | zero => exact absurd hle (by simp)
    | succ i =>
      have hle2 : xs.length ≤ i := by
        simp only [List.length_cons] at hle
        omega
      have h22 : i < (xs ++ List.replicate m a).length := by
        simp only [List.cons_append, List.length_cons] at h2
        omega
      exact ih m a i hle2 h22

theorem mem_deviceLines_length (lines : List String) (l : String)
    (hl : l ∈ deviceLines lines) : 4 ≤ lines.length := by
  rcases lines with _ | ⟨a, _ | ⟨b, _ | ⟨c, rest⟩⟩⟩
  · exact absurd hl (List.not_mem_nil l)
  · exact absurd hl (List.not_mem_nil l)
  · exact absurd hl (List.not_mem_nil l)
  · cases rest with
    | nil =>
      exfalso
      rw [deviceLines, List.takeWhile_nil] at hl
      split at hl <;> try exact absurd hl (List.not_mem_nil l)
      split at hl <;> exact absurd hl (List.not_mem_nil l)
    | cons d rest2 =>
      simp only [List.length_cons]
      omega

/-- Claim C1, counterexample. The output `"a\nb\nc\nd 1 2 3\n"` is
accepted by the parser (at least 3 lines, non-empty result), has exactly
one device line, yet the returned list has two records — the trailing
zero-valued record does not come from any device line, so "exactly one
record per device line" fails. -/
theorem C1_records_counterexample :
    iostat (some "a\nb\nc\nd 1 2 3\n") =
      .ok [⟨"d", "1", "2", "3"⟩, zeroIops] ∧
    deviceLines (linesOf "a\nb\nc\nd 1 2 3\n") = ["d 1 2 3"] ∧
    ([(⟨"d", "1", "2", "3"⟩ : iopsData), zeroIops]).length ≠
      (deviceLines (linesOf "a\nb\nc\nd 1 2 3\n")).length := by
  decide

/-- Claim C1, amended. For every output the parser accepts, the record at
position `j` (0-based) for `j` below the number of device lines is built
from the first four whitespace-separated fields of the `j`-th device
line, one record per device line in order; the remaining records of the
returned list (whose length is the line count minus 3) are zero-valued,
with all four fields empty. -/
theorem C1_records_amended (out : String) (rs : List iopsData)
    (h : iostat (some out) = .ok rs) :
    rs.length = (linesOf out).length - 3 ∧
    (∀ j (hj : j < (deviceLines (linesOf out)).length),
      ∃ hj2 : j < rs.length,
        4 ≤ (goFields ((deviceLines (linesOf out)).get ⟨j, hj⟩)).length ∧
        rs.get ⟨j, hj2⟩ = recordOfLine ((deviceLines (linesOf out)).get ⟨j, hj⟩)) ∧
    (∀ j (hj : j < rs.length),
      (deviceLines (linesOf out)).length ≤ j → rs.get ⟨j, hj⟩ = zeroIops) := by
  obtain ⟨h4, hall, hshape⟩ := iostat_ok_shape out rs h
  have hdle := deviceLines_length_le (linesOf out)
  subst hshape
  refine ⟨?_, ?_, ?_⟩
  · simp only [List.length_append, List.length_map, List.length_replicate]
    omega
  · intro j hj
    have hmaplen : ((deviceLines (linesOf out)).map recordOfLine).length =
        (deviceLines (linesOf out)).length := List.length_map _ _
    have hj2 : j < ((deviceLines (linesOf out)).map recordOfLine ++
        List.replicate ((linesOf out).length - 3 - (deviceLines (linesOf out)).length)
          zeroIops).length := by
      simp only [List.length_append, List.length_map, List.length_replicate]
      omega
    refine ⟨hj2, hall _ (List.get_mem _ j hj), ?_⟩
    rw [get_append_left_my _ _ j (by omega) hj2]
    rw [List.get_eq_getElem, List.get_eq_getElem, List.getElem_map]
  · intro j hj hge
    exact get_append_replicate_my _ _ _ j (by simpa using hge) hj

/-- Claim C6, counterexample to the literal precondition. In the output
`"a\n\nc\nx"` the first empty line is line 2, so there are no lines
"after the third, up to the first empty line" and the stated precondition
holds vacuously — yet the parser still hits an out-of-range access on
line 4 (`"x"`, a single field), because the loop skips an empty line at
index 1 instead of stopping there. -/
theorem C6_precondition_counterexample :
    (∀ l ∈ ((linesOf "a\n\nc\nx").takeWhile (fun s => s ≠ "")).drop 3,
      4 ≤ (goFields l).length) ∧
    iostat (some "a\n\nc\nx") = .error .indexOutOfRange := by
  decide

/-- Claim C6, amended. The parser indexes the first four fields of every
device line — every line after the third up to the first empty line other
than line 2 (which the loop skips) — without checking the field count,
and it avoids the out-of-range access exactly when each such line has at
least four whitespace-separated fields. -/
theorem C6_safety_amended (out : String) :
    (∀ l ∈ deviceLines (linesOf out), 4 ≤ (goFields l).length) ↔
      iostat (some out) ≠ .error .indexOutOfRange := by
  constructor
  · intro hall herr
    have hp : iostatParse (linesOf out) = .error .indexOutOfRange := herr
    by_cases h4 : 4 ≤ (linesOf out).length
    · have hok := ((iostatParse_spec (linesOf out)).2 h4).1 hall
      exact absurd (hp.symm.trans hok) (by simp)
    · have hune := (iostatParse_spec (linesOf out)).1 (by omega)
      exact absurd (hp.symm.trans hune) (by simp)
  · intro hne
    by_contra hnall
    push_neg at hnall
    have h4 : 4 ≤ (linesOf out).length := by
      rcases hnall with ⟨l, hl, -⟩
      exact mem_deviceLines_length (linesOf out) l hl
    exact hne (((iostatParse_spec (linesOf out)).2 h4).2 hnall)

/-- Witness for C6: a well-formed output (four-field device line) does
not panic. -/
theorem C6_safety_witness :
    iostat (some "h\n\nD\ns 1 2 3\n") ≠ .error .indexOutOfRange :=
  (C6_safety_amended "h\n\nD\ns 1 2 3\n").mp (by decide)

/-- Claim C7. For every output: the parser reports the unexpected-output
error exactly when the output has fewer than 4 newline-separated lines;
every accepted output yields exactly `lines - 3` records; and the records
past the device lines (e.g. those arising from trailing blank lines,
where the loop stopped at the first empty line after the header) are
zero-valued, all four fields empty. -/
theorem C7_shape_confirmed (out : String) :
    (iostat (some out) = .error .unexpectedOutput ↔ (linesOf out).length < 4) ∧
    (∀ rs, iostat (some out) = .ok rs →
      rs.length = (linesOf out).length - 3 ∧
      ∀ j (hj : j < rs.length),
        (deviceLines (linesOf out)).length ≤ j → rs.get ⟨j, hj⟩ = zeroIops) := by
  constructor
  · constructor
    · intro herr
      by_contra h4n
      push_neg at h4n
      have hp : iostatParse (linesOf out) = .error .unexpectedOutput := herr
      by_cases hall : ∀ l ∈ deviceLines (linesOf out), 4 ≤ (goFields l).length
      · have hok := ((iostatParse_spec (linesOf out)).2 h4n).1 hall
        exact absurd (hp.symm.trans hok) (by simp)
      · push_neg at hall
        have hix := ((iostatParse_spec (linesOf out)).2 h4n).2 hall
        exact absurd (hp.symm.trans hix) (by simp)
    · intro h4
      exact (iostatParse_spec (linesOf out)).1 h4
  · intro rs h
    obtain ⟨h4, hall, hshape⟩ := iostat_ok_shape out rs h
    have hdle := deviceLines_length_le (linesOf out)
    subst hshape
    constructor
    · simp only [List.length_append, List.length_map, List.length_replicate]
      omega
    · intro j hj hge
      exact get_append_replicate_my _ _ _ j (by simpa using hge) hj

/-- Witness for C7 at a concrete accepted output with one trailing blank
line: two records, the second zero-valued. -/
theorem C7_shape_witness :
    ([(⟨"d", "1", "2", "3"⟩ : iopsData), zeroIops]).length =
      (linesOf "a\nb\nc\nd 1 2 3\n").length - 3 :=
  ((C7_shape_confirmed "a\nb\nc\nd 1 2 3\n").2
    [⟨"d", "1", "2", "3"⟩, zeroIops] (by decide)).1

/-- Witness for C1 amended, at the same concrete output. -/
theorem C1_records_amended_witness :
    ([(⟨"d", "1", "2", "3"⟩ : iopsData), zeroIops]).length =
      (linesOf "a\nb\nc\nd 1 2 3\n").length - 3 ∧
    (∀ j (hj : j < (deviceLines (linesOf "a\nb\nc\nd 1 2 3\n")).length),
      ∃ hj2 : j < ([(⟨"d", "1", "2", "3"⟩ : iopsData), zeroIops]).length,
        4 ≤ (goFields ((deviceLines (linesOf "a\nb\nc\nd 1 2 3\n")).get ⟨j, hj⟩)).length ∧
        ([(⟨"d", "1", "2", "3"⟩ : iopsData), zeroIops]).get ⟨j, hj2⟩ =
          recordOfLine ((deviceLines (linesOf "a\nb\nc\nd 1 2 3\n")).get ⟨j, hj⟩)) ∧
    (∀ j (hj : j < ([(⟨"d", "1", "2", "3"⟩ : iopsData), zeroIops]).length),
      (deviceLines (linesOf "a\nb\nc\nd 1 2 3\n")).length ≤ j →
        ([(⟨"d", "1", "2", "3"⟩ : iopsData), zeroIops]).get ⟨j, hj⟩ = zeroIops) :=
  C1_records_amended "a\nb\nc\nd 1 2 3\n" [⟨"d", "1", "2", "3"⟩, zeroIops] (by decide)


/-- Claim C2. For every parsed record list, the report is built and its
single host node's latest map contains, for the record at 1-based
position `i+1` (0-based `i`), the four entries keyed
`iops-table-(i+1)___device`, `…___tps`, `…___readps` and `…___writeps`
holding that record's four fields; every entry of the map is one of
these four entries of some record; and every entry carries the single
timestamp taken at sampling time. -/
theorem C2_latest_map_confirmed (hostID : String) (ts : Nat) (cmdOut : Option String)
    (data : List iopsData) (h : iops cmdOut = .ok data) :
    ∃ rpt : report, makeReport hostID ts cmdOut = .ok (rpt, none) ∧
    ∃ nd : node,
      rpt.Host.Nodes = [(getTopologyHost hostID, nd)] ∧
      ∃ entries, nd.Latest = some entries ∧
        entries.length = 4 * data.length ∧
        (∀ i (hi : i < data.length),
          ("iops-table-" ++ toString (i + 1) ++ "___device",
            (⟨ts, (data.get ⟨i, hi⟩).Device⟩ : stringEntry)) ∈ entries ∧
          ("iops-table-" ++ toString (i + 1) ++ "___tps",
            (⟨ts, (data.get ⟨i, hi⟩).Tps⟩ : stringEntry)) ∈ entries ∧
          ("iops-table-" ++ toString (i + 1) ++ "___readps",
            (⟨ts, (data.get ⟨i, hi⟩).Readps⟩ : stringEntry)) ∈ entries ∧
          ("iops-table-" ++ toString (i + 1) ++ "___writeps",
            (⟨ts, (data.get ⟨i, hi⟩).Writeps⟩ : stringEntry)) ∈ entries) ∧
        (∀ p ∈ entries, ∃ i, ∃ hi : i < data.length,
          p ∈ entriesFor ts i (data.get ⟨i, hi⟩)) ∧
        (∀ p ∈ entries, (p.2).Timestamp = ts) := by
  have hgl : getLatests ts cmdOut = .ok (some (latestsFrom ts 0 data)) := by
    simp only [getLatests, h]
  refine ⟨_, makeReport_ok hostID ts cmdOut _ hgl, _, rfl,
    latestsFrom ts 0 data, rfl, latestsFrom_length ts data 0, ?_, ?_, ?_⟩
  · intro i hi
    refine ⟨?_, ?_, ?_, ?_⟩ <;>
      · apply latestsFrom_mem_of ts data 0 i hi
        rw [Nat.zero_add]
        simp [entriesFor]
  · intro p hp
    rcases latestsFrom_mem_elim ts data 0 p hp with ⟨i, hi, hpe⟩
    rw [Nat.zero_add] at hpe
    exact ⟨i, hi, hpe⟩
  · intro p hp
    rcases latestsFrom_mem_elim ts data 0 p hp with ⟨i, hi, hpe⟩
    exact entriesFor_timestamp ts (0 + i) _ p hpe

/-- Witness for C2 at a concrete sample with one record and timestamp 7. -/
theorem C2_latest_map_witness :
    ∃ rpt : report, makeReport "h" 7 (some "a\nb\nc\nd 1 2 3") = .ok (rpt, none) ∧
    ∃ nd : node,
      rpt.Host.Nodes = [(getTopologyHost "h", nd)] ∧
      ∃ entries, nd.Latest = some entries ∧
        entries.length = 4 * ([(⟨"d", "1", "2", "3"⟩ : iopsData)]).length ∧
        (∀ i (hi : i < ([(⟨"d", "1", "2", "3"⟩ : iopsData)]).length),
          ("iops-table-" ++ toString (i + 1) ++ "___device",
            (⟨7, (([(⟨"d", "1", "2", "3"⟩ : iopsData)]).get ⟨i, hi⟩).Device⟩ : stringEntry))
            ∈ entries ∧
          ("iops-table-" ++ toString (i + 1) ++ "___tps",
            (⟨7, (([(⟨"d", "1", "2", "3"⟩ : iopsData)]).get ⟨i, hi⟩).Tps⟩ : stringEntry))
            ∈ entries ∧
          ("iops-table-" ++ toString (i + 1) ++ "___readps",
            (⟨7, (([(⟨"d", "1", "2", "3"⟩ : iopsData)]).get ⟨i, hi⟩).Readps⟩ : stringEntry))
            ∈ entries ∧
          ("iops-table-" ++ toString (i + 1) ++ "___writeps",
            (⟨7, (([(⟨"d", "1", "2", "3"⟩ : iopsData)]).get ⟨i, hi⟩).Writeps⟩ : stringEntry))
            ∈ entries) ∧
        (∀ p ∈ entries, ∃ i, ∃ hi : i < ([(⟨"d", "1", "2", "3"⟩ : iopsData)]).length,
          p ∈ entriesFor 7 i (([(⟨"d", "1", "2", "3"⟩ : iopsData)]).get ⟨i, hi⟩)) ∧
        (∀ p ∈ entries, (p.2).Timestamp = 7) :=
  C2_latest_map_confirmed "h" 7 (some "a\nb\nc\nd 1 2 3")
    [⟨"d", "1", "2", "3"⟩] (by decide)

/-- Claim C3, counterexample. On a request whose sampled output has a
device line with fewer than four fields, the handler panics while
re-parsing: the parsing loop's out-of-range access propagates out of
`getLatests`, `makeReport` and `Report`, and no response — in particular
no JSON document — is returned for that request, refuting "returns that
JSON document" for every incoming request. -/
theorem C3_fresh_per_request_counterexample :
    Report "h" ⟨0, some "a\nb\nc\nx"⟩ = .error .indexOutOfRange := by
  decide

/-- Claim C3, amended. On each incoming request the handler performs a
fresh sample, re-parses it and re-builds the report: the i-th response
outcome equals `Report` of the i-th request alone — computed from that
request's own timestamp and command output, with nothing cached or
reused between requests — and whenever that request's `makeReport`
builds a report, the response written is exactly that freshly built JSON
document; a sampled output with a short device line instead panics and
that request gets no response. -/
theorem C3_fresh_per_request_amended (hostID : String) (reqs : List httpRequest)
    (i : Nat) (hi : i < reqs.length) :
    ∃ hi2 : i < (handleRequests hostID reqs).length,
      (handleRequests hostID reqs).get ⟨i, hi2⟩ =
        Report hostID (reqs.get ⟨i, hi⟩) ∧
      ∀ rpt : report,
        makeReport hostID ((reqs.get ⟨i, hi⟩)).ts ((reqs.get ⟨i, hi⟩)).cmdOut =
          .ok (rpt, none) →
        (handleRequests hostID reqs).get ⟨i, hi2⟩ = .ok (.ok rpt) := by
  have hlen : (handleRequests hostID reqs).length = reqs.length :=
    List.length_map reqs (Report hostID)
  have hget : (handleRequests hostID reqs).get ⟨i, by omega⟩ =
      Report hostID (reqs.get ⟨i, hi⟩) := by
    rw [List.get_eq_getElem, List.get_eq_getElem]
    exact List.getElem_map (Report hostID)
  refine ⟨by omega, hget, ?_⟩
  intro rpt hmk
  rw [hget]
  exact Report_ok hostID (reqs.get ⟨i, hi⟩) rpt hmk

/-- Witness for C3 at a concrete one-request sequence. -/
theorem C3_fresh_per_request_witness :
    ∃ hi2 : 0 < (handleRequests "h" [⟨3, none⟩]).length,
      (handleRequests "h" [⟨3, none⟩]).get ⟨0, hi2⟩ =
        Report "h" (([(⟨3, none⟩ : httpRequest)]).get ⟨0, by decide⟩) ∧
      ∀ rpt : report,
        makeReport "h" ((([(⟨3, none⟩ : httpRequest)]).get ⟨0, by decide⟩)).ts
          ((([(⟨3, none⟩ : httpRequest)]).get ⟨0, by decide⟩)).cmdOut = .ok (rpt, none) →
        (handleRequests "h" [⟨3, none⟩]).get ⟨0, hi2⟩ = .ok (.ok rpt) :=
  C3_fresh_per_request_amended "h" [⟨3, none⟩] 0 (by decide)

/-- Claim C4, counterexample. The handler does not always respond 200:
on a sampled output whose device line has fewer than four fields, the
parsing loop panics inside `makeReport` — no report with a nil error and
no omitted-latest node is produced — the panic propagates out of the
handler, and the request dies with no response at all. -/
theorem C4_always_ok_counterexample :
    makeReport "h" 0 (some "h\n\nD\nbad\n") = .error .indexOutOfRange ∧
    Report "h" ⟨0, some "h\n\nD\nbad\n"⟩ = .error .indexOutOfRange := by
  decide

/-- Claim C4, amended. For every request whose sampled output does not
make the parsing loop panic, the handler responds HTTP 200 with a
well-formed report and `makeReport` returns a nil error; in particular
on every sampling failure that `iostat` reports as a Go error (command
failure, unexpected output) the single host node's latest map is nil
(omitted from the JSON) rather than the request failing, and the 500
branches are unreachable. A sampled output with a short device line
instead panics: that request gets no response. -/
theorem C4_response_amended (hostID : String) (ts : Nat) (cmdOut : Option String) :
    (iops cmdOut ≠ .error .indexOutOfRange →
      ∃ rpt : report, makeReport hostID ts cmdOut = .ok (rpt, none) ∧
        Report hostID ⟨ts, cmdOut⟩ = .ok (.ok rpt)) ∧
    (∀ e, iops cmdOut = .error e → e ≠ .indexOutOfRange →
      ∃ rpt : report, makeReport hostID ts cmdOut = .ok (rpt, none) ∧
        rpt.Host.Nodes = [(getTopologyHost hostID,
          { LatestControls := [], Latest := none })] ∧
        Report hostID ⟨ts, cmdOut⟩ = .ok (.ok rpt)) ∧
    (iops cmdOut = .error .indexOutOfRange →
      Report hostID ⟨ts, cmdOut⟩ = .error .indexOutOfRange) := by
  cases hio : iops cmdOut with
  | error e =>
    cases e with
    | execFailed =>
      have hgl : getLatests ts cmdOut = .ok none := by simp only [getLatests, hio]
      have hmk := makeReport_ok hostID ts cmdOut none hgl
      have hrep := Report_ok hostID ⟨ts, cmdOut⟩ _ hmk
      refine ⟨fun _ => ⟨_, hmk, hrep⟩, fun e2 he2 hne2 => ⟨_, hmk, rfl, hrep⟩, ?_⟩
      intro habs
      exact absurd (Except.error.inj habs) (by simp)
    | unexpectedOutput =>
      have hgl : getLatests ts cmdOut = .ok none := by simp only [getLatests, hio]
      have hmk := makeReport_ok hostID ts cmdOut none hgl
      have hrep := Report_ok hostID ⟨ts, cmdOut⟩ _ hmk
      refine ⟨fun _ => ⟨_, hmk, hrep⟩, fun e2 he2 hne2 => ⟨_, hmk, rfl, hrep⟩, ?_⟩
      intro habs
      exact absurd (Except.error.inj habs) (by simp)
    | indexOutOfRange =>
      have hgl : getLatests ts cmdOut = .error .indexOutOfRange := by
        simp only [getLatests, hio]
      have hmk := makeReport_panic hostID ts cmdOut .indexOutOfRange hgl
      have hrep := Report_panic hostID ⟨ts, cmdOut⟩ .indexOutOfRange hmk
      refine ⟨fun hne => absurd rfl hne, ?_, fun _ => hrep⟩
      intro e2 he2 hne2
      exact absurd (Except.error.inj he2).symm hne2
  | ok data =>
    have hgl : getLatests ts cmdOut = .ok (some (latestsFrom ts 0 data)) := by
      simp only [getLatests, hio]
    have hmk := makeReport_ok hostID ts cmdOut _ hgl
    have hrep := Report_ok hostID ⟨ts, cmdOut⟩ _ hmk
    refine ⟨fun _ => ⟨_, hmk, hrep⟩, ?_, ?_⟩
    · intro e2 he2 hne2
      exact absurd he2 (by simp)
    · intro habs
      exact absurd habs (by simp)

/-- Witness for C4: when the command itself fails (a Go error return,
not a panic), the node's latest map is nil and the response is 200. -/
theorem C4_response_witness :
    ∃ rpt : report, makeReport "h" 0 none = .ok (rpt, none) ∧
      rpt.Host.Nodes = [(getTopologyHost "h",
        { LatestControls := [], Latest := none })] ∧
      Report "h" ⟨0, none⟩ = .ok (.ok rpt) :=
  (C4_response_amended "h" 0 none).2.1 .execFailed rfl (by decide)

/-- Claim C5, counterexample. The daemon does not sample on a schedule:
with no incoming requests it invokes the disk-statistics command exactly
once (the startup sanity check), and each further invocation is caused by
a request — the invocation count is a function of the requests served,
not of elapsed time. -/
theorem C5_periodic_counterexample :
    execCallsOfMain [] = 1 ∧ execCallsOfMain [⟨0, none⟩] = 2 := by
  decide

/-- Claim C5, amended. The daemon shells out to the disk-statistics
utility once at startup as a sanity check and then exactly once per
incoming report request; sampling is request-driven, with no periodic
schedule. -/
theorem C5_request_driven_amended (reqs : List httpRequest) :
    execCallsOfMain reqs = 1 + reqs.length := by
  induction reqs with
  | nil => rfl
  | cons r rest ih =>
    simp only [execCallsOfMain, List.map_cons, List.sum_cons, List.length_cons,
      execCallsOfReport, execCallsOfMakeReport, execCallsOfGetLatests] at ih ⊢
    omega

/-- Claim C8. The metadata and table templates are fixed: exactly the
four metadata templates keyed device, tps, readps, writeps — each with
From "latest" and Priority 1 — and exactly one table template keyed
"iops-table-" with prefix "iops-table-", type "multicolumn-table" and
columns device, tps, readps, writeps in that order with labels Device,
tps, kB_read/s, kB_wrtn/s; and every report embeds these, independent of
the sampled data. -/
theorem C8_templates_confirmed :
    getMetadataTemplate.map Prod.fst = ["device", "tps", "readps", "writeps"] ∧
    (∀ kv ∈ getMetadataTemplate,
      ((kv.2)).ID = kv.1 ∧ ((kv.2)).From = "latest" ∧ ((kv.2)).Priority = 1) ∧
    getTableTemplate = [("iops-table-",
      ⟨"iops-table-", "Iops", iopsTablePrefix, "multicolumn-table",
       [⟨"device", "Device", ""⟩, ⟨"tps", "tps", ""⟩,
        ⟨"readps", "kB_read/s", ""⟩, ⟨"writeps", "kB_wrtn/s", ""⟩]⟩)] ∧
    ∀ hostID ts cmdOut (rpt : report) (err : Option String),
      makeReport hostID ts cmdOut = .ok (rpt, err) →
      rpt.Host.MetadataTemplates = getMetadataTemplate ∧
      rpt.Host.TableTemplates = getTableTemplate := by
  refine ⟨by decide, by decide, by decide, ?_⟩
  intro hostID ts cmdOut rpt err h
  obtain ⟨-, latest, -, rfl⟩ := makeReport_ok_elim hostID ts cmdOut rpt err h
  exact ⟨rfl, rfl⟩

/-- Witness for C8 at the device metadata template. -/
theorem C8_templates_witness :
    ((⟨"device", "Device", 0, "", 1, "latest"⟩ : metadataTemplate)).ID = "device" ∧
    ((⟨"device", "Device", 0, "", 1, "latest"⟩ : metadataTemplate)).From = "latest" ∧
    ((⟨"device", "Device", 0, "", 1, "latest"⟩ : metadataTemplate)).Priority = 1 :=
  C8_templates_confirmed.2.1 ("device", ⟨"device", "Device", 0, "", 1, "latest"⟩)
    (by decide)

/-- Claim C9. Every report the plugin builds has exactly one topology
node, keyed by the host ID followed by ";<host>", with an empty
latestControls map; the topology's controls map is empty; and the plugin
specification always has ID "iops", interfaces ["reporter"] and API
version "1". -/
theorem C9_topology_confirmed (hostID : String) (ts : Nat) (cmdOut : Option String)
    (rpt : report) (err : Option String)
    (h : makeReport hostID ts cmdOut = .ok (rpt, err)) :
    ∃ latest, getLatests ts cmdOut = .ok latest ∧
      rpt.Host.Nodes =
        [(hostID ++ ";<host>", { LatestControls := [], Latest := latest })] ∧
      rpt.Host.Controls = [] ∧
      rpt.Plugins =
        [⟨"iops", "iops", "Adds a IOPS details to Host", ["reporter"], "1"⟩] := by
  obtain ⟨-, latest, hgl, rfl⟩ := makeReport_ok_elim hostID ts cmdOut rpt err h
  exact ⟨latest, hgl, rfl, rfl, rfl⟩

/-- Witness for C9 at a concrete report (command failure, latest nil). -/
theorem C9_topology_witness :
    ∃ latest, getLatests 0 none = .ok latest ∧
      ({ Host :=
          { Nodes := [(getTopologyHost "h",
                       { LatestControls := [], Latest := none })],
            Controls := [],
            MetadataTemplates := getMetadataTemplate,
            TableTemplates := getTableTemplate },
         Plugins := [⟨"iops", "iops", "Adds a IOPS details to Host",
           ["reporter"], "1"⟩] } : report).Host.Nodes =
        [("h" ++ ";<host>", { LatestControls := [], Latest := latest })] ∧
      ({ Host :=
          { Nodes := [(getTopologyHost "h",
                       { LatestControls := [], Latest := none })],
            Controls := [],
            MetadataTemplates := getMetadataTemplate,
            TableTemplates := getTableTemplate },
         Plugins := [⟨"iops", "iops", "Adds a IOPS details to Host",
           ["reporter"], "1"⟩] } : report).Host.Controls = [] ∧
      ({ Host :=
          { Nodes := [(getTopologyHost "h",
                       { LatestControls := [], Latest := none })],
            Controls := [],
            MetadataTemplates := getMetadataTemplate,
            TableTemplates := getTableTemplate },
         Plugins := [⟨"iops", "iops", "Adds a IOPS details to Host",
           ["reporter"], "1"⟩] } : report).Plugins =
        [⟨"iops", "iops", "Adds a IOPS details to Host", ["reporter"], "1"⟩] :=
  C9_topology_confirmed "h" 0 none
    { Host :=
        { Nodes := [(getTopologyHost "h",
                     { LatestControls := [], Latest := none })],
          Controls := [],
          MetadataTemplates := getMetadataTemplate,
          TableTemplates := getTableTemplate },
      Plugins := [⟨"iops", "iops", "Adds a IOPS details to Host",
        ["reporter"], "1"⟩] } none rfl

/-- Claim C10. In every reachable state of any number of concurrent
handler invocations, an invocation inside the sample-parse-build-respond
sequence holds the single mutex, and no two distinct invocations are
inside that sequence at the same time. -/
theorem C10_mutex_confirmed (n : Nat) (s : lockState n) (h : reachable n s) :
    (∀ t : Fin n, inCritical s t → s.owner = some t) ∧
    ∀ t1 t2 : Fin n, t1 ≠ t2 → ¬ (inCritical s t1 ∧ inCritical s t2) := by
  have inv := reachable_lockInvariant n s h
  refine ⟨inv, fun t1 t2 hne hc => ?_⟩
  rcases hc with ⟨h1, h2⟩
  exact hne (Option.some.inj ((inv t1 h1).symm.trans (inv t2 h2)))

/-- Witness for C10: after the first invocation acquires the lock, the
two invocations are not both in the critical section. -/
theorem C10_mutex_witness :
    ¬ (inCritical (⟨some 0, Function.update (fun _ => 0) 0 1⟩ : lockState 2) 0 ∧
       inCritical (⟨some 0, Function.update (fun _ => 0) 0 1⟩ : lockState 2) 1) :=
  (C10_mutex_confirmed 2 ⟨some 0, Function.update (fun _ => 0) 0 1⟩
    (Relation.ReflTransGen.single (reportStep.lock 0 (initState 2) rfl rfl))).2
    0 1 (by decide)

end ScopeIops
